import Mathlib

/-!
Shallow embedding of the strobf polymorphic string obfuscator core
(`core/transformations/Transformation.py`, `core/transformations/transforms.py`,
`core/transformations/TransformationChain.py`, `core/engine/PolymorphicEngine.py`,
`core/engine/Context.py`).

Machine integers in the source are Python arbitrary-precision ints; every value
flowing through the engine is non-negative, so the embedding uses `Nat`
(with an explicit `Int` comparison where Python subtraction could go negative).
Python exceptions are modelled with `Except PyError`: `ArithmeticException`
becomes `PyError.arith`, `ZeroDivisionError` becomes `PyError.zeroDiv`, and the
`ValueError` that `chr` raises on a value above 0x10FFFF becomes
`PyError.valueErr`.
-/

namespace Strobf

/-- Tags for the Python exceptions the source can raise. -/
inductive PyError where
  | arith
  | zeroDiv
  | valueErr
deriving DecidableEq

instance {ε α : Type} [DecidableEq ε] [DecidableEq α] : DecidableEq (Except ε α) := fun x y =>
  match x, y with
  | .ok a, .ok b =>
    if h : a = b then .isTrue (h ▸ rfl) else .isFalse fun hc => h (Except.ok.inj hc)
  | .ok _, .error _ => .isFalse fun hc => Except.noConfusion hc
  | .error _, .ok _ => .isFalse fun hc => Except.noConfusion hc
  | .error e, .error f =>
    if h : e = f then .isTrue (h ▸ rfl) else .isFalse fun hc => h (Except.error.inj hc)

/-- Inner loop of `Transformation.gcd` stripping factors of two:
`while (a & 1) == 0: a >>= 1`. The source only reaches this loop with `a ≥ 1`
(where it terminates); the extra `a ≠ 0` conjunct makes the recursion
well-founded and never changes the result on those inputs. -/
def gcdStripTwos (a : Nat) : Nat :=
  if h : a &&& 1 = 0 ∧ a ≠ 0 then gcdStripTwos (a >>> 1)
  else a
termination_by a
decreasing_by
  simp only [Nat.shiftRight_eq_div_pow, pow_one]
  omega

/-- First loop of `Transformation.gcd`:
`while ((a | b) & 1) == 0: a >>= 1; b >>= 1; n += 1`. The source reaches it
only with `a ≥ 1`; the `a ≠ 0` conjunct is for well-foundedness. -/
def gcdShiftCommon (a b n : Nat) : Nat × Nat × Nat :=
  if h : (a ||| b) &&& 1 = 0 ∧ a ≠ 0 then gcdShiftCommon (a >>> 1) (b >>> 1) (n + 1)
  else (a, b, n)
termination_by a
decreasing_by
  simp only [Nat.shiftRight_eq_div_pow, pow_one]
  omega

theorem gcdStripTwos_le (a : Nat) : gcdStripTwos a ≤ a := by
  unfold gcdStripTwos
  split
  · rename_i h
    have h2 : a >>> 1 < a := by
      simp only [Nat.shiftRight_eq_div_pow, pow_one]
      omega
    exact le_trans (le_trans (gcdStripTwos_le (a >>> 1)) (le_of_lt h2)) (le_refl a)
  · exact le_refl a
termination_by a
decreasing_by
  simp only [Nat.shiftRight_eq_div_pow, pow_one]
  omega

theorem gcdStripTwos_pos (a : Nat) (h : 1 ≤ a) : 1 ≤ gcdStripTwos a := by
  unfold gcdStripTwos
  split
  · rename_i hc
    apply gcdStripTwos_pos
    have hmod : a &&& 1 = a % 2 := Nat.and_one_is_mod a
    simp only [Nat.shiftRight_eq_div_pow, pow_one]
    omega
  · exact h
termination_by a
decreasing_by
  simp only [Nat.shiftRight_eq_div_pow, pow_one]
  omega

/-- Subtractive loop of `Transformation.gcd` (Stein's algorithm):
strip twos from `b`, order the pair, subtract, stop when the difference is 0.
The source reaches it only with `a ≥ 1`; the `min … = 0` disjunct is for
well-foundedness and never fires there. -/
def gcdLoop (a b : Nat) : Nat :=
  if h : max a (gcdStripTwos b) - min a (gcdStripTwos b) = 0 ∨ min a (gcdStripTwos b) = 0 then
    min a (gcdStripTwos b)
  else
    gcdLoop (min a (gcdStripTwos b)) (max a (gcdStripTwos b) - min a (gcdStripTwos b))
termination_by a + b
decreasing_by
  have hb := gcdStripTwos_le b
  omega

/-- `Transformation.gcd` (Stein's binary gcd) from
`core/transformations/Transformation.py`. -/
def gcd (a b : Nat) : Nat :=
  if a = 0 then b
  else if b = 0 then a
  else
    match gcdShiftCommon a b 0 with
    | (a1, b1, n) => gcdLoop (gcdStripTwos a1) b1 <<< n

/-- The `while a > 1` loop of `Transformation.mod_inverse` (extended Euclid).
Python state update per iteration: `q = a // m; a, m = m, a % m;
y, x = x - q * y, y`. A zero divisor would raise `ZeroDivisionError` in the
source (`a // m`). -/
def euclidLoop (a m : Nat) (y x : Int) : Except PyError Int :=
  if 1 < a then
    if h : m = 0 then .error .zeroDiv
    else euclidLoop m (a % m) (x - ((a / m : Nat) : Int) * y) y
  else .ok x
termination_by m
decreasing_by
  exact Nat.mod_lt _ (Nat.pos_of_ne_zero h)

/-- `Transformation.mod_inverse` from `core/transformations/Transformation.py`.
Raises `ArithmeticException` when `a % m == 0` or `gcd(a, m) ≠ 1`
(`a % 0` itself raises `ZeroDivisionError`); the `m == 1` early return of the
source is kept although the `a % m == 0` guard already fires for `m = 1`. -/
def mod_inverse (a m : Nat) : Except PyError Int :=
  if m = 0 then .error .zeroDiv
  else if a % m = 0 then .error .arith
  else if gcd a m ≠ 1 then .error .arith
  else if m = 1 then .ok 0
  else
    match euclidLoop a m 0 1 with
    | .error e => .error e
    | .ok x => if x < 0 then .ok (x + m) else .ok x

/-- The transform IR: the nine concrete `Transformation` subclasses of
`core/transformations/transforms.py`, each carrying its own parameters and
`max_bits`. `mulModInv` stores both the original sampled value (`initial`)
and the working value (`value`, which the source sets to
`mod_inverse(initial, modulo)` at construction time). -/
inductive Transform where
  | add (value max_bits : Nat)
  | mulMod (value modulo max_bits : Nat)
  | mulModInv (initial value modulo max_bits : Nat)
  | not (max_bits : Nat)
  | permutation (pos1 pos2 bits max_bits : Nat)
  | rotateLeft (value max_bits : Nat)
  | rotateRight (value max_bits : Nat)
  | substract (value max_bits : Nat)
  | xor (value max_bits : Nat)
deriving DecidableEq

/-- Engine constant `ADDITIVE_LIMIT = 1 << (max_bits - 2)`. -/
def ADDITIVE_LIMIT (max_bits : Nat) : Nat := 1 <<< (max_bits - 2)

/-- Engine constant `MULTIPLICATIVE_LIMIT = 1 << (max_bits // 2)`. -/
def MULTIPLICATIVE_LIMIT (max_bits : Nat) : Nat := 1 <<< (max_bits / 2)

/-- `MulMod.transform` (also inherited by `MulModInv`):
`if i != (i * value) // value or i * value >= 2^max_bits: raise`; else
`return (i * value) % modulo`. With `value = 0` the guard division raises
`ZeroDivisionError`; a zero `modulo` would likewise raise at the `%`. -/
def mulModTransform (value modulo max_bits i : Nat) : Except PyError Nat :=
  if value = 0 then .error .zeroDiv
  else if i ≠ i * value / value ∨ 1 <<< max_bits ≤ i * value then .error .arith
  else if modulo = 0 then .error .zeroDiv
  else .ok (i * value % modulo)

/-- `Permutation.transform`:
`xor = ((i >> pos1) ^ (i >> pos2)) & ((1 << bits) - 1);
return i ^ ((xor << pos1) | (xor << pos2))` (note: no masking by `max_bits`). -/
def permApply (pos1 pos2 bits i : Nat) : Nat :=
  i ^^^ (((((i >>> pos1) ^^^ (i >>> pos2)) &&& ((1 <<< bits) - 1)) <<< pos1) |||
         ((((i >>> pos1) ^^^ (i >>> pos2)) &&& ((1 <<< bits) - 1)) <<< pos2))

/-- `RotateLeft.transform`:
`(((i & mask) >> (max_bits - value)) | (i << value)) & mask`. -/
def rotlApply (value max_bits i : Nat) : Nat :=
  (((i &&& ((1 <<< max_bits) - 1)) >>> (max_bits - value)) ||| (i <<< value)) &&&
    ((1 <<< max_bits) - 1)

/-- `RotateRight.transform`:
`(((i & mask) << (max_bits - value)) | (i >> value)) & mask`. -/
def rotrApply (value max_bits i : Nat) : Nat :=
  (((i &&& ((1 <<< max_bits) - 1)) <<< (max_bits - value)) ||| (i >>> value)) &&&
    ((1 <<< max_bits) - 1)

/-- The forward semantics `transform(i)` of each variant, as written in
`core/transformations/transforms.py`. The `Add` guard
`i > self.max() - self.value` is compared over `Int` because Python evaluates
it with exact integers. `Not.transform` is `~i & mask`, which for `i ≥ 0`
equals `mask ^^^ (i &&& mask)` bit for bit. -/
def Transform.transform : Transform → Nat → Except PyError Nat
  | .add value max_bits, i =>
      if (((1 <<< max_bits : Nat) : Int) - (value : Int)) < (i : Int) then .error .arith
      else .ok (i + value)
  | .mulMod value modulo max_bits, i => mulModTransform value modulo max_bits i
  | .mulModInv _initial value modulo max_bits, i => mulModTransform value modulo max_bits i
  | .not max_bits, i => .ok (((1 <<< max_bits) - 1) ^^^ (i &&& ((1 <<< max_bits) - 1)))
  | .permutation pos1 pos2 bits _max_bits, i => .ok (permApply pos1 pos2 bits i)
  | .rotateLeft value max_bits, i => .ok (rotlApply value max_bits i)
  | .rotateRight value max_bits, i => .ok (rotrApply value max_bits i)
  | .substract value _max_bits, i => if i < value then .error .arith else .ok (i - value)
  | .xor value _max_bits, i => .ok (i ^^^ value)

/-- The structural inverse `reversed()` of each variant. Only
`MulMod.reversed` can raise: it constructs `MulModInv(value, modulo, max_bits)`
whose `__init__` computes `mod_inverse(value, modulo)` (stored as the working
value, non-negative by construction) and keeps `value` as `initial`. -/
def Transform.reversed : Transform → Except PyError Transform
  | .add value max_bits => .ok (.substract value max_bits)
  | .mulMod value modulo max_bits =>
      (mod_inverse value modulo).map fun j => .mulModInv value j.toNat modulo max_bits
  | .mulModInv initial _value modulo max_bits => .ok (.mulMod initial modulo max_bits)
  | .not max_bits => .ok (.not max_bits)
  | .permutation pos1 pos2 bits max_bits => .ok (.permutation pos1 pos2 bits max_bits)
  | .rotateLeft value max_bits => .ok (.rotateRight value max_bits)
  | .rotateRight value max_bits => .ok (.rotateLeft value max_bits)
  | .substract value max_bits => .ok (.add value max_bits)
  | .xor value max_bits => .ok (.xor value max_bits)

/-- `Permutation.__init__` validation:
`if max(pos1, pos2) + bits > max_bits: raise ArithmeticException`. -/
def mkPermutation (pos1 pos2 bits max_bits : Nat) : Except PyError Transform :=
  if max_bits < max pos1 pos2 + bits then .error .arith
  else .ok (.permutation pos1 pos2 bits max_bits)

/-- The acceptance predicate of the engine sampler `PolymorphicEngine.permutation`:
`(pos1 + bits) < max_bits and (pos2 + bits) < max_bits`. -/
def samplerPermAccepts (pos1 pos2 bits max_bits : Nat) : Prop :=
  pos1 + bits < max_bits ∧ pos2 + bits < max_bits

instance (pos1 pos2 bits max_bits : Nat) :
    Decidable (samplerPermAccepts pos1 pos2 bits max_bits) :=
  inferInstanceAs (Decidable (_ ∧ _))

/-- `TransformationChain.apply`: sequential application of the transforms in
insertion order; any raised exception propagates. -/
def chainApply : List Transform → Nat → Except PyError Nat
  | [], c => .ok c
  | t :: ts, c =>
    match t.transform c with
    | .error e => .error e
    | .ok c2 => chainApply ts c2

/-- `TransformationChain.reverse`: walk the transforms from the last to the
first, replacing each by its `reversed()`; a raised `ArithmeticException`
(from `MulMod.reversed`) propagates. -/
def chainReverse (ts : List Transform) : Except PyError (List Transform) :=
  ts.reverse.mapM Transform.reversed

/-- The engine output record `Context` from `core/engine/Context.py`. -/
structure Context where
  max_bits : Nat
  bytes : List Nat
  mask : Nat
  forward : List Transform
  reverse : List Transform
deriving DecidableEq

/-- Outcome of the per-character verification loop of one engine attempt
(the `while pos < buffer_len` loop inside `PolymorphicEngine.transform`):
either a fully checked buffer, a `Retry` (restart with a fresh chain), or an
exception that none of the `except` clauses catches. -/
inductive AttemptRes where
  | ok (bytes : List Nat)
  | retry
  | uncaught (e : PyError)
deriving DecidableEq

/-- One pass of the `while pos < buffer_len` loop of
`PolymorphicEngine.transform` over the remaining code points. Per position:
`buffer[pos] = forward.apply(c)`; `check = reverse.apply(buffer[pos])`;
`if chr(check) != chr(c): raise Retry` (where `chr` raises `ValueError` on a
value above 0x10FFFF, an exception the engine does not catch);
`except ArithmeticException: raise Retry`; finally
`if buffer[pos] < 0 or buffer[pos] >= self.max(): raise Retry`. -/
def attemptLoop (forward reverse : List Transform) (max_bits : Nat) :
    List Nat → AttemptRes
  | [] => .ok []
  | c :: rest =>
    match chainApply forward c with
    | .error .arith => .retry
    | .error e => .uncaught e
    | .ok y =>
      match chainApply reverse y with
      | .error .arith => .retry
      | .error e => .uncaught e
      | .ok check =>
        if 0x10FFFF < check then .uncaught .valueErr
        else if 0x10FFFF < c then .uncaught .valueErr
        else if check ≠ c then .retry
        else if 1 <<< max_bits ≤ y then .retry
        else
          match attemptLoop forward reverse max_bits rest with
          | .ok bs => .ok (y :: bs)
          | .retry => .retry
          | .uncaught e => .uncaught e

/-- Outcome of one full attempt of the engine retry loop: compute
`reverse = forward.reverse()` (an `ArithmeticException` raised there escapes
the loop, which only catches `Retry`), then run the per-character loop. -/
inductive AttemptOut where
  | success (bytes : List Nat) (rev : List Transform)
  | retry
  | uncaught (e : PyError)
deriving DecidableEq

/-- One iteration of the `while True` loop of `PolymorphicEngine.transform`
for a given freshly sampled forward chain. -/
def attempt (forward : List Transform) (max_bits : Nat) (text : List Nat) : AttemptOut :=
  match chainReverse forward with
  | .error e => .uncaught e
  | .ok rev =>
    match attemptLoop forward rev max_bits text with
    | .ok bs => .success bs rev
    | .retry => .retry
    | .uncaught e => .uncaught e

/-- Result of running the engine: a returned `Context`, an uncaught exception,
or `fuelOut`, meaning the `while True` retry loop is still running after the
given number of chain-generation attempts (the source has no retry cap). -/
inductive EngineOutcome where
  | ok (ctx : Context)
  | fuelOut
  | uncaught (e : PyError)
deriving DecidableEq

/-- `PolymorphicEngine.transform` (after the input string has been resolved to
a sequence of code points). The randomness of `generate_forward` is abstracted
as the stream `cseq` of sampled chains: attempt `i` of the retry loop uses
chain `cseq i`. `fuel` bounds how many attempts we unroll; the source's
`while True` loop itself is uncapped. On success the engine returns
`Context(max_bits, buffer, MASK, forward, reverse)`. -/
def transformFuel (cseq : Nat → List Transform) (max_bits : Nat) (text : List Nat) :
    Nat → EngineOutcome
  | 0 => .fuelOut
  | n + 1 =>
    match attempt (cseq 0) max_bits text with
    | .success bs rev => .ok ⟨max_bits, bs, (1 <<< max_bits) - 1, cseq 0, rev⟩
    | .retry => transformFuel (fun i => cseq (i + 1)) max_bits text n
    | .uncaught e => .uncaught e

/-- Code points of a string, Python `[ord(ch) for ch in text]`. -/
def codePoints (s : String) : List Nat := s.data.map Char.toNat

/-- The path-or-literal head of `PolymorphicEngine.transform`:
`if os.path.exists(text): text = open(text).read()`. The filesystem is passed
explicitly as a map from paths to the contents of existing readable files. -/
def resolveInput (fs : String → Option String) (text : String) : String :=
  match fs text with
  | some contents => contents
  | none => text

/-- `PolymorphicEngine.transform` on its actual string argument, including the
file-redirection head. -/
def transformWithFS (fs : String → Option String) (cseq : Nat → List Transform)
    (max_bits : Nat) (text : String) (fuel : Nat) : EngineOutcome :=
  transformFuel cseq max_bits (codePoints (resolveInput fs text)) fuel

/-! ## Claim C3: the Add overflow guard -/

/-- Claim C3 counterexample: with `W = 8`, `v = 1 ∈ [0, ADDITIVE_LIMIT)` and
`x = 255 ∈ [0, 2^W)` we have `x + v = 256 = 2^W`, where the claim demands the
Overflow error, yet `Add.transform` returns 256: the source guard
`i > self.max() - self.value` is strict, so the boundary `x + v = 2^W` passes. -/
theorem add_overflow_boundary_counterexample :
    1 < ADDITIVE_LIMIT 8 ∧ 255 < 1 <<< 8 ∧ 1 <<< 8 ≤ 255 + 1 ∧
    Transform.transform (.add 1 8) 255 = .ok 256 := by decide

/-- Claim C3 amended: for `v ∈ [0, ADDITIVE_LIMIT)` and `x ∈ [0, 2^W)`,
`Add(v, W).transform(x)` raises the Overflow error exactly when
`x + v > 2^W`, and otherwise returns `x + v` (which is `2^W` itself, one past
the W-bit range, in the boundary case; the engine discards that value later
through its range sanity check). -/
theorem add_transform_spec (v W x : Nat) (hv : v < ADDITIVE_LIMIT W) (hx : x < 1 <<< W) :
    (Transform.transform (.add v W) x = .error .arith ↔ 1 <<< W < x + v) ∧
    (x + v ≤ 1 <<< W → Transform.transform (.add v W) x = .ok (x + v)) := by
  have hguard : ((((1 <<< W : Nat)) : Int) - (v : Int) < (x : Int)) ↔ 1 <<< W < x + v := by
    omega
  by_cases hc : 1 <<< W < x + v
  · constructor
    · simp only [Transform.transform, if_pos (hguard.mpr hc)]
      simp [hc]
    · intro hle
      exact absurd hle (by omega)
  · constructor
    · simp only [Transform.transform, if_neg (fun hcc => hc (hguard.mp hcc))]
      simp [hc]
    · intro hle
      simp only [Transform.transform, if_neg (fun hcc => hc (hguard.mp hcc))]

/-- Witness for `add_transform_spec` at concrete inputs. -/
theorem add_transform_spec_witness :
    Transform.transform (.add 10 8) 250 = .error .arith ∧
    Transform.transform (.add 10 8) 100 = .ok 110 :=
  ⟨(add_transform_spec 10 8 250 (by decide) (by decide)).1.mpr (by decide),
   (add_transform_spec 10 8 100 (by decide) (by decide)).2 (by decide)⟩

/-! ## Claim C10: the Permutation constructor guard -/

/-- Claim C10: `Permutation.__init__` raises exactly when
`max(pos1, pos2) + bits > max_bits`; the boundary `max(pos1, pos2) + bits =
max_bits` is accepted, which is strictly weaker than the engine sampler's
acceptance predicate `pos1 + bits < max_bits ∧ pos2 + bits < max_bits`
(witnessed by `pos1 = 0, pos2 = 2, bits = 2, max_bits = 4`). -/
theorem permutation_ctor_spec (pos1 pos2 bits max_bits : Nat) :
    (mkPermutation pos1 pos2 bits max_bits = .error .arith ↔
      max_bits < max pos1 pos2 + bits) ∧
    (max pos1 pos2 + bits = max_bits →
      mkPermutation pos1 pos2 bits max_bits = .ok (.permutation pos1 pos2 bits max_bits)) ∧
    (samplerPermAccepts pos1 pos2 bits max_bits →
      mkPermutation pos1 pos2 bits max_bits = .ok (.permutation pos1 pos2 bits max_bits)) ∧
    (mkPermutation 0 2 2 4 = .ok (.permutation 0 2 2 4) ∧ ¬ samplerPermAccepts 0 2 2 4) := by
  refine ⟨?_, fun h => ?_, fun h => ?_, by decide⟩
  · by_cases h : max_bits < max pos1 pos2 + bits <;> simp [mkPermutation, h]
  · rw [mkPermutation, if_neg (by omega)]
  · obtain ⟨h1, h2⟩ := h
    rw [mkPermutation, if_neg (by omega)]

/-- Witness for `permutation_ctor_spec`: the boundary case is accepted and a
guard violation raises. -/
theorem permutation_ctor_spec_witness :
    mkPermutation 1 0 3 4 = .ok (.permutation 1 0 3 4) ∧
    mkPermutation 2 0 3 4 = .error .arith :=
  ⟨(permutation_ctor_spec 1 0 3 4).2.1 (by decide),
   (permutation_ctor_spec 2 0 3 4).1.mpr (by decide)⟩

/-! ## Claim C9: the path-or-literal input head -/

/-- Claim C9: when the string argument names an existing file (is in the
domain of the filesystem map), `PolymorphicEngine.transform` obfuscates the
file contents, not the argument; otherwise it obfuscates the argument itself.
The closed conjunct exhibits two filesystem states under which the same
argument yields different outcomes, so the returned Context is a function of
filesystem state as well. -/
theorem transform_file_redirect (fs : String → Option String)
    (cseq : Nat → List Transform) (W fuel : Nat) (text contents : String) :
    (fs text = some contents →
      transformWithFS fs cseq W text fuel = transformFuel cseq W (codePoints contents) fuel) ∧
    (fs text = none →
      transformWithFS fs cseq W text fuel = transformFuel cseq W (codePoints text) fuel) ∧
    transformWithFS (fun s => if s = "a" then some "b" else none)
        (fun _ => [.xor 1 16]) 16 "a" 1 ≠
      transformWithFS (fun _ => none) (fun _ => [.xor 1 16]) 16 "a" 1 := by
  refine ⟨fun h => ?_, fun h => ?_, by decide⟩ <;>
    simp [transformWithFS, resolveInput, h]

/-- Witness for `transform_file_redirect` at concrete inputs. -/
theorem transform_file_redirect_witness :
    transformWithFS (fun s => if s = "a" then some "b" else none)
        (fun _ => [.xor 1 16]) 16 "a" 1 =
      transformFuel (fun _ => [.xor 1 16]) 16 (codePoints "b") 1 :=
  (transform_file_redirect (fun s => if s = "a" then some "b" else none)
    (fun _ => [.xor 1 16]) 16 1 "a" "b").1 (by decide)

/-! ## Claim C8: MulMod with value 0 -/

/-- Claim C8: `MulMod(0, modulo, W)` is constructible (the constructor only
stores its fields; in the embedding it is the total constructor
`Transform.mulMod 0 modulo W`), its `transform` raises `ZeroDivisionError`
for every input while evaluating `(i * value) // value`, and such an error is
not caught by the engine retry loop, whose handlers cover only
`ArithmeticException` (and the internal `Retry`): any chain whose forward
application raises `ZeroDivisionError` on the first code point makes
`PolymorphicEngine.transform` propagate that error. -/
theorem mulmod_zero_division (modulo max_bits x : Nat) :
    Transform.transform (.mulMod 0 modulo max_bits) x = .error .zeroDiv ∧
    (∀ cseq text n c rest rev, text = c :: rest →
      chainReverse (cseq 0) = .ok rev →
      chainApply (cseq 0) c = .error .zeroDiv →
      transformFuel cseq max_bits text (n + 1) = .uncaught .zeroDiv) := by
  refine ⟨rfl, fun cseq text n c rest rev htext hrev happ => ?_⟩
  subst htext
  have hat : attempt (cseq 0) max_bits (c :: rest) = .uncaught .zeroDiv := by
    rw [attempt, hrev]
    simp only [attemptLoop, happ]
  simp only [transformFuel, hat]

/-- Witness for `mulmod_zero_division`: a `MulModInv` whose working value is 0
(sharing `MulMod.transform`) crashes the engine with `ZeroDivisionError`. -/
theorem mulmod_zero_division_witness :
    Transform.transform (.mulMod 0 65536 16) 5 = .error .zeroDiv ∧
    transformFuel (fun _ => [.mulModInv 3 0 65536 16]) 16 [5] 1 = .uncaught .zeroDiv :=
  ⟨(mulmod_zero_division 65536 16 5).1,
   (mulmod_zero_division 65536 16 5).2 (fun _ => [.mulModInv 3 0 65536 16]) [5] 0 5 []
     [.mulMod 3 65536 16] rfl (by decide) (by decide)⟩

/-! ## Claim C5: the retry loop has no cap -/

/-- If every one of the first `n` sampled chains makes the attempt retry, the
engine is still inside its `while True` loop after `n` attempts. -/
theorem transformFuel_retry_all (cseq : Nat → List Transform) (max_bits : Nat)
    (text : List Nat) (n : Nat)
    (h : ∀ i, i < n → attempt (cseq i) max_bits text = .retry) :
    transformFuel cseq max_bits text n = .fuelOut := by
  induction n generalizing cseq with
  | zero => rfl
  | succ n ih =>
    simp only [transformFuel, h 0 (Nat.succ_pos n)]
    exact ih (fun i => cseq (i + 1)) (fun i hi => h (i + 1) (Nat.succ_lt_succ hi))

/-- Claim C5 counterexample: with `W = 16` and the text `[65535]` (its only
code point exceeds `2^(W-1) = 32768`), a sampler that keeps producing the
chain `[Add(1, 16)]` leaves `PolymorphicEngine.transform` still retrying
after 10000 attempts — the "generous cap" the claim's spec sentence suggests —
with no Context returned and no `RetryBudgetExhausted` raised (the source has
no such error and no attempt counter at all). -/
theorem engine_budget_counterexample :
    transformFuel (fun _ => [.add 1 16]) 16 [65535] 10000 = .fuelOut ∧
    1 <<< 15 < 65535 :=
  ⟨transformFuel_retry_all (fun _ => [.add 1 16]) 16 [65535] 10000
    (fun _ _ => (by decide : attempt [.add 1 16] 16 [65535] = .retry)), by decide⟩

/-- Claim C5 amended: `PolymorphicEngine.transform` has no retry budget: its
`while True` loop runs until some sampled chain passes all checks, and as long
as every attempt retries it neither returns a Context nor raises any
budget-exhaustion error, for every number of attempts. -/
theorem engine_no_retry_cap (cseq : Nat → List Transform) (max_bits : Nat)
    (text : List Nat) (n : Nat)
    (h : ∀ i, i < n → attempt (cseq i) max_bits text = .retry) :
    transformFuel cseq max_bits text n = .fuelOut :=
  transformFuel_retry_all cseq max_bits text n h

/-- Witness for `engine_no_retry_cap` at a concrete sampler and text. -/
theorem engine_no_retry_cap_witness :
    transformFuel (fun _ => [.add 1 16]) 16 [65535] 3 = .fuelOut :=
  engine_no_retry_cap (fun _ => [.add 1 16]) 16 [65535] 3
    (fun _ _ => (by decide : attempt [.add 1 16] 16 [65535] = .retry))

/-! ## Claim C4: mod_inverse at the arguments 1 and m = 1 -/

theorem lor_one_and_one (m : Nat) : (1 ||| m) &&& 1 = 1 := by
  rw [Nat.and_one_is_mod]
  rcases Nat.mod_two_eq_zero_or_one (1 ||| m) with h | h
  · exfalso
    rw [Nat.mod_two_eq_zero_iff_testBit_zero] at h
    simp [Nat.testBit_lor] at h
  · exact h

theorem gcdStripTwos_one : gcdStripTwos 1 = 1 := by
  unfold gcdStripTwos
  rw [dif_neg (by decide)]

theorem gcdLoop_one (b : Nat) (hb : 1 ≤ b) : gcdLoop 1 b = 1 := by
  have h1 : 1 ≤ gcdStripTwos b := gcdStripTwos_pos b hb
  have h2 : gcdStripTwos b ≤ b := gcdStripTwos_le b
  unfold gcdLoop
  by_cases hc : gcdStripTwos b = 1
  · rw [hc, dif_pos (by decide)]
    rfl
  · have h3 : 2 ≤ gcdStripTwos b := by omega
    have hmax : max 1 (gcdStripTwos b) = gcdStripTwos b := by omega
    have hmin : min 1 (gcdStripTwos b) = 1 := by omega
    rw [hmax, hmin, dif_neg (by omega)]
    exact gcdLoop_one (gcdStripTwos b - 1) (by omega)
termination_by b
decreasing_by omega

theorem gcd_one_left (m : Nat) (hm : 1 ≤ m) : gcd 1 m = 1 := by
  unfold gcd
  rw [if_neg (by omega), if_neg (by omega)]
  have hsc : gcdShiftCommon 1 m 0 = (1, m, 0) := by
    unfold gcdShiftCommon
    rw [dif_neg (by simp [lor_one_and_one])]
  rw [hsc]
  show gcdLoop (gcdStripTwos 1) m <<< 0 = 1
  rw [gcdStripTwos_one, gcdLoop_one m hm]
  decide

theorem euclidLoop_one (m : Nat) (y x : Int) : euclidLoop 1 m y x = .ok x := by
  unfold euclidLoop
  norm_num

/-- Claim C4 counterexample: the claim demands `mod_inverse(1, 1) = 1` (from
the `m ≥ 1` part) and `mod_inverse(3, 1) = 0`, but with `m = 1` the guard
`a % m == 0` always fires first and raises `ArithmeticException`: the
source's `if m == 1: return 0` branch is unreachable. -/
theorem mod_inverse_at_one_counterexample :
    mod_inverse 1 1 = .error .arith ∧ mod_inverse 3 1 = .error .arith := by decide

/-- Claim C4 amended: `mod_inverse(1, m) = 1` holds for every `m ≥ 2`; for
`m = 1` (any `a`, including `a = 1`) `mod_inverse` instead raises the
`ArithmeticException` of the `a % m == 0` guard, never returning 0. -/
theorem mod_inverse_low_args :
    (∀ m, 2 ≤ m → mod_inverse 1 m = .ok 1) ∧
    (∀ a, mod_inverse a 1 = .error .arith) := by
  constructor
  · intro m hm
    unfold mod_inverse
    have h1 : 1 % m = 1 := Nat.mod_eq_of_lt (by omega)
    rw [if_neg (by omega), if_neg (by simp [h1])]
    have hg : gcd 1 m = 1 := gcd_one_left m (by omega)
    rw [if_neg (by simp [hg]), if_neg (by omega), euclidLoop_one]
    norm_num
  · intro a
    unfold mod_inverse
    rw [if_neg one_ne_zero, if_pos (Nat.mod_one a)]

/-- Witness for `mod_inverse_low_args` at concrete inputs. -/
theorem mod_inverse_low_args_witness :
    mod_inverse 1 5 = .ok 1 ∧ mod_inverse 7 1 = .error .arith :=
  ⟨mod_inverse_low_args.1 5 (by decide), mod_inverse_low_args.2 7⟩

/-! ## Claim C6: reversed is an involution on well-formed transforms -/

/-- Admissibility of a transform's parameters for claim C6: for `MulMod` the
modular inverse of its value must exist (this is what the engine sampler
enforces by rejection), and a `MulModInv` must carry the working value its
constructor would have computed from its stored original value. All other
variants are unconstrained. -/
def WellFormedT : Transform → Prop
  | .mulMod value modulo _ => ∃ j, mod_inverse value modulo = .ok j
  | .mulModInv initial value modulo _ => mod_inverse initial modulo = .ok (value : Int)
  | _ => True

/-- Claim C6: for every transform with admissible parameters,
`T.reversed().reversed()` is structurally equal to `T` — same variant and same
parameter values, including the preserved original value inside `MulModInv`. -/
theorem reversed_involutive (t : Transform) (h : WellFormedT t) :
    t.reversed >>= Transform.reversed = .ok t := by
  cases t with
  | mulMod value modulo max_bits =>
    obtain ⟨j, hj⟩ := h
    show ((mod_inverse value modulo).map
        fun j => Transform.mulModInv value j.toNat modulo max_bits) >>= Transform.reversed =
      .ok (.mulMod value modulo max_bits)
    rw [hj]
    rfl
  | mulModInv initial value modulo max_bits =>
    simp only [WellFormedT] at h
    show ((mod_inverse initial modulo).map
        fun j => Transform.mulModInv initial j.toNat modulo max_bits) =
      .ok (.mulModInv initial value modulo max_bits)
    rw [h]
    rfl
  | add value max_bits => rfl
  | not max_bits => rfl
  | permutation pos1 pos2 bits max_bits => rfl
  | rotateLeft value max_bits => rfl
  | rotateRight value max_bits => rfl
  | substract value max_bits => rfl
  | xor value max_bits => rfl

theorem mod_inverse_3_16 : mod_inverse 3 16 = .ok 11 := by
  have h16 : gcdStripTwos 16 = 1 := by
    rw [gcdStripTwos, dif_pos (by decide)]
    show gcdStripTwos 8 = 1
    rw [gcdStripTwos, dif_pos (by decide)]
    show gcdStripTwos 4 = 1
    rw [gcdStripTwos, dif_pos (by decide)]
    show gcdStripTwos 2 = 1
    rw [gcdStripTwos, dif_pos (by decide)]
    show gcdStripTwos 1 = 1
    exact gcdStripTwos_one
  have h3 : gcdStripTwos 3 = 3 := by
    rw [gcdStripTwos, dif_neg (by decide)]
  have hloop : gcdLoop 3 16 = 1 := by
    rw [gcdLoop, h16, dif_neg (by decide)]
    show gcdLoop 1 2 = 1
    exact gcdLoop_one 2 (by omega)
  have hg : gcd 3 16 = 1 := by
    unfold gcd
    rw [if_neg (by omega), if_neg (by omega)]
    have hsc : gcdShiftCommon 3 16 0 = (3, 16, 0) := by
      rw [gcdShiftCommon, dif_neg (by decide)]
    rw [hsc]
    show gcdLoop (gcdStripTwos 3) 16 <<< 0 = 1
    rw [h3, hloop]
    decide
  have he : euclidLoop 3 16 0 1 = .ok (-5) := by
    rw [euclidLoop, if_pos (by decide), dif_neg (by decide)]
    show euclidLoop 16 3 1 0 = .ok (-5)
    rw [euclidLoop, if_pos (by decide), dif_neg (by decide)]
    show euclidLoop 3 1 (-5) 1 = .ok (-5)
    rw [euclidLoop, if_pos (by decide), dif_neg (by decide)]
    show euclidLoop 1 0 16 (-5) = .ok (-5)
    rw [euclidLoop, if_neg (by decide)]
  unfold mod_inverse
  rw [if_neg (by decide), if_neg (by decide), if_neg (by simp [hg]), if_neg (by decide), he]
  decide

/-- Witness for `reversed_involutive`: a `MulMod`, its paired `MulModInv`
(with the computed working value 11 and preserved original 3), and a
parameter-free rotation. -/
theorem reversed_involutive_witness :
    Transform.reversed (.mulMod 3 16 16) >>= Transform.reversed = .ok (.mulMod 3 16 16) ∧
    Transform.reversed (.mulModInv 3 11 16 16) >>= Transform.reversed =
      .ok (.mulModInv 3 11 16 16) ∧
    Transform.reversed (.rotateLeft 5 16) >>= Transform.reversed = .ok (.rotateLeft 5 16) :=
  ⟨reversed_involutive (.mulMod 3 16 16) ⟨11, mod_inverse_3_16⟩,
   reversed_involutive (.mulModInv 3 11 16 16) mod_inverse_3_16,
   reversed_involutive (.rotateLeft 5 16) trivial⟩

/-! ## Claim C1: every returned Context round-trips -/

theorem attemptLoop_ok (f r : List Transform) (W : Nat) (text bs : List Nat)
    (h : attemptLoop f r W text = .ok bs) :
    bs.length = text.length ∧ ∀ i, i < text.length →
      bs.getD i 0 < 1 <<< W ∧ chainApply r (bs.getD i 0) = .ok (text.getD i 0) := by
  induction text generalizing bs with
  | nil =>
    simp only [attemptLoop] at h
    cases h
    exact ⟨rfl, fun i hi => absurd hi (Nat.not_lt_zero i)⟩
  | cons c rest ih =>
    simp only [attemptLoop] at h
    cases hfc : chainApply f c with
    | error e => rw [hfc] at h; cases e <;> simp at h
    | ok y =>
      rw [hfc] at h
      simp only [] at h
      cases hrc : chainApply r y with
      | error e => rw [hrc] at h; cases e <;> simp at h
      | ok check =>
        rw [hrc] at h
        simp only [] at h
        split_ifs at h with h1 h2 h3 h4 <;> try simp at h
        push_neg at h3
        cases hrest : attemptLoop f r W rest with
        | ok bs2 =>
          rw [hrest] at h
          cases h
          obtain ⟨hlen, hall⟩ := ih bs2 hrest
          refine ⟨by simp [hlen], fun i hi => ?_⟩
          cases i with
          | zero =>
            refine ⟨by simpa using Nat.lt_of_not_le h4, ?_⟩
            simpa [h3] using hrc
          | succ j =>
            have hj := hall j (by simpa using hi)
            simpa using hj
        | retry => rw [hrest] at h; simp at h
        | uncaught e => rw [hrest] at h; simp at h

/-- Claim C1: whenever `PolymorphicEngine.transform` returns a `Context`
(for any sampled chain stream and any retry count), every element of
`Context.bytes` lies in `[0, 2^W)` (`Nat` already gives the lower bound) and
applying the stored reverse chain to `bytes[i]` recovers `ord(text[i])` for
every index, because the engine verifies exactly these properties for every
position before leaving its retry loop. -/
theorem engine_context_roundtrip (cseq : Nat → List Transform) (W fuel : Nat)
    (text : List Nat) (ctx : Context)
    (h : transformFuel cseq W text fuel = .ok ctx) :
    ctx.max_bits = W ∧ ctx.bytes.length = text.length ∧
    ∀ i, i < text.length →
      ctx.bytes.getD i 0 < 1 <<< W ∧
      chainApply ctx.reverse (ctx.bytes.getD i 0) = .ok (text.getD i 0) := by
  induction fuel generalizing cseq with
  | zero => simp [transformFuel] at h
  | succ n ih =>
    simp only [transformFuel] at h
    cases hat : attempt (cseq 0) W text with
    | success bs rev =>
      rw [hat] at h
      cases h
      rw [attempt] at hat
      cases hcr : chainReverse (cseq 0) with
      | error e => rw [hcr] at hat; simp at hat
      | ok rev2 =>
        rw [hcr] at hat
        simp only [] at hat
        cases hal : attemptLoop (cseq 0) rev2 W text with
        | ok bs2 =>
          rw [hal] at hat
          injection hat with e1 e2
          subst e1
          subst e2
          obtain ⟨hlen, hall⟩ := attemptLoop_ok _ _ _ _ _ hal
          exact ⟨rfl, hlen, hall⟩
        | retry => rw [hal] at hat; simp at hat
        | uncaught e => rw [hal] at hat; simp at hat
    | retry => rw [hat] at h; exact ih (fun i => cseq (i + 1)) h
    | uncaught e => rw [hat] at h; simp at h

/-- Witness for `engine_context_roundtrip` on the text `"hi"` (code points
104, 105) and a sampler producing the single chain `[Xor(1, 16)]`. -/
theorem engine_context_roundtrip_witness :
    (⟨16, [105, 104], 65535, [.xor 1 16], [.xor 1 16]⟩ : Context).max_bits = 16 ∧
    (⟨16, [105, 104], 65535, [.xor 1 16], [.xor 1 16]⟩ : Context).bytes.length =
      [104, 105].length ∧
    ∀ i, i < [104, 105].length →
      (⟨16, [105, 104], 65535, [.xor 1 16], [.xor 1 16]⟩ : Context).bytes.getD i 0 < 1 <<< 16 ∧
      chainApply (⟨16, [105, 104], 65535, [.xor 1 16], [.xor 1 16]⟩ : Context).reverse
          ((⟨16, [105, 104], 65535, [.xor 1 16], [.xor 1 16]⟩ : Context).bytes.getD i 0) =
        .ok ([104, 105].getD i 0) :=
  engine_context_roundtrip (fun _ => [.xor 1 16]) 16 1 [104, 105]
    ⟨16, [105, 104], 65535, [.xor 1 16], [.xor 1 16]⟩ (by decide)

/-! ## Claim C7: rotate-right undoes rotate-left -/

theorem testBit_ge_width (x W j : Nat) (hx : x < 2 ^ W) (hj : W ≤ j) :
    x.testBit j = false :=
  Nat.testBit_lt_two_pow (lt_of_lt_of_le hx (Nat.pow_le_pow_right (by norm_num) hj))

theorem rotlApply_testBit (k W x j : Nat) (hk : k ≤ W) :
    (rotlApply k W x).testBit j =
      (decide (j < W) && if j < k then x.testBit (W - k + j) else x.testBit (j - k)) := by
  simp only [rotlApply, Nat.one_shiftLeft, Nat.testBit_land, Nat.testBit_lor,
    Nat.testBit_shiftLeft, Nat.testBit_shiftRight, Nat.testBit_two_pow_sub_one]
  by_cases hjW : j < W
  · by_cases hjk : j < k
    · have d1 : W - k + j < W := by omega
      have d2 : ¬ (k ≤ j) := by omega
      simp [hjW, hjk, d1, d2]
    · have d1 : ¬ (W - k + j < W) := by omega
      have d2 : k ≤ j := by omega
      simp [hjW, hjk, d1, d2]
  · simp [hjW]

theorem rotlApply_lt (k W x : Nat) : rotlApply k W x < 2 ^ W := by
  have h1 : rotlApply k W x ≤ (1 <<< W) - 1 := Nat.and_le_right
  have h2 : (1 <<< W : Nat) = 2 ^ W := Nat.one_shiftLeft W
  have h3 : 0 < 2 ^ W := Nat.pos_pow_of_pos W (by norm_num)
  omega

theorem rotrApply_testBit (k W x j : Nat) (hk : k ≤ W) (hx : x < 2 ^ W) :
    (rotrApply k W x).testBit j =
      (decide (j < W) && if j < W - k then x.testBit (k + j) else x.testBit (j - (W - k))) := by
  simp only [rotrApply, Nat.one_shiftLeft, Nat.testBit_land, Nat.testBit_lor,
    Nat.testBit_shiftLeft, Nat.testBit_shiftRight, Nat.testBit_two_pow_sub_one]
  by_cases hjW : j < W
  · by_cases hjk : j < W - k
    · have d1 : ¬ (W - k ≤ j) := by omega
      simp [hjW, hjk, d1]
    · have d1 : W - k ≤ j := by omega
      have d2 : j - (W - k) < W := by omega
      have d3 : x.testBit (k + j) = false := testBit_ge_width x W (k + j) hx (by omega)
      simp [hjW, hjk, d1, d2, d3]
  · simp [hjW]

theorem rotr_rotl_cancel (k W x : Nat) (hk1 : 1 ≤ k) (hkW : k < W) (hx : x < 2 ^ W) :
    rotrApply k W (rotlApply k W x) = x := by
  apply Nat.eq_of_testBit_eq
  intro j
  rw [rotrApply_testBit k W _ j (by omega) (rotlApply_lt k W x),
    rotlApply_testBit k W x _ (by omega), rotlApply_testBit k W x _ (by omega)]
  by_cases hjW : j < W
  · by_cases hjk : j < W - k
    · have d1 : k + j < W := by omega
      have d2 : ¬ (k + j < k) := by omega
      have d3 : k + j - k = j := by omega
      simp [hjW, hjk, d1, d2, d3]
    · have d1 : j - (W - k) < W := by omega
      have d2 : j - (W - k) < k := by omega
      have d3 : W - k + (j - (W - k)) = j := by omega
      simp [hjW, hjk, d1, d2, d3]
  · simp [hjW, testBit_ge_width x W j hx (by omega)]

/-- Claim C7: for every rotation amount `k ∈ [1, W-1]` and every
`x ∈ [0, 2^W)`, `RotateRight(k, W).transform(RotateLeft(k, W).transform(x))`
returns `x`: rotate-left then rotate-right by the same amount at the same
width is the identity on the W-bit domain. -/
theorem rotl_rotr_identity (k W x : Nat) (hk1 : 1 ≤ k) (hk2 : k ≤ W - 1)
    (hx : x < 1 <<< W) :
    (Transform.transform (.rotateLeft k W) x) >>= Transform.transform (.rotateRight k W) =
      .ok x := by
  show Except.ok (rotrApply k W (rotlApply k W x)) = .ok x
  rw [rotr_rotl_cancel k W x hk1 (by omega) (by rw [← Nat.one_shiftLeft]; exact hx)]

/-- Witness for `rotl_rotr_identity`: the spec's concrete scenario
`RotL(1,16)` then `RotR(1,16)` on `x = 10`. -/
theorem rotl_rotr_identity_witness :
    (Transform.transform (.rotateLeft 1 16) 10) >>= Transform.transform (.rotateRight 1 16) =
      .ok 10 :=
  rotl_rotr_identity 1 16 10 (by decide) (by decide) (by decide)

/-! ## Claim C2: Permutation as an involution -/

/-- The `xor` temporary of `Permutation.transform`:
`((i >> pos1) ^ (i >> pos2)) & ((1 << bits) - 1)`. -/
def gPerm (pos1 pos2 bits i : Nat) : Nat :=
  ((i >>> pos1) ^^^ (i >>> pos2)) &&& ((1 <<< bits) - 1)

theorem permApply_eq (pos1 pos2 bits i : Nat) :
    permApply pos1 pos2 bits i =
      i ^^^ ((gPerm pos1 pos2 bits i <<< pos1) ||| (gPerm pos1 pos2 bits i <<< pos2)) := rfl

theorem gPerm_lt (pos1 pos2 bits i : Nat) : gPerm pos1 pos2 bits i < 2 ^ bits := by
  have h1 : gPerm pos1 pos2 bits i ≤ (1 <<< bits) - 1 := Nat.and_le_right
  have h2 : (1 <<< bits : Nat) = 2 ^ bits := Nat.one_shiftLeft bits
  have h3 : 0 < 2 ^ bits := Nat.pos_pow_of_pos bits (by norm_num)
  omega

theorem gPerm_testBit (pos1 pos2 bits i j : Nat) :
    (gPerm pos1 pos2 bits i).testBit j =
      ((i.testBit (pos1 + j) ^^ i.testBit (pos2 + j)) && decide (j < bits)) := by
  simp only [gPerm, Nat.one_shiftLeft, Nat.testBit_land, Nat.testBit_xor,
    Nat.testBit_shiftRight, Nat.testBit_two_pow_sub_one]

theorem dPerm_testBit_left (pos1 pos2 bits i j : Nat) (hj : j < bits)
    (hd : pos1 + bits ≤ pos2) :
    ((gPerm pos1 pos2 bits i <<< pos1) |||
        (gPerm pos1 pos2 bits i <<< pos2)).testBit (pos1 + j) =
      (gPerm pos1 pos2 bits i).testBit j := by
  have d0 : pos1 ≤ pos1 + j := Nat.le_add_right pos1 j
  have d1 : ¬ (pos2 ≤ pos1 + j) := by omega
  have e1 : pos1 + j - pos1 = j := by omega
  simp [Nat.testBit_lor, Nat.testBit_shiftLeft, d0, d1, e1]

theorem dPerm_testBit_right (pos1 pos2 bits i j : Nat) (hj : j < bits)
    (hd : pos1 + bits ≤ pos2) :
    ((gPerm pos1 pos2 bits i <<< pos1) |||
        (gPerm pos1 pos2 bits i <<< pos2)).testBit (pos2 + j) =
      (gPerm pos1 pos2 bits i).testBit j := by
  have d0 : pos2 ≤ pos2 + j := Nat.le_add_right pos2 j
  have d1 : pos1 ≤ pos2 + j := by omega
  have e1 : pos2 + j - pos2 = j := by omega
  have hgb : (gPerm pos1 pos2 bits i).testBit (pos2 + j - pos1) = false :=
    testBit_ge_width _ bits _ (gPerm_lt pos1 pos2 bits i) (by omega)
  simp [Nat.testBit_lor, Nat.testBit_shiftLeft, d0, d1, e1, hgb]

theorem gPerm_permApply (pos1 pos2 bits i : Nat) (hd : pos1 + bits ≤ pos2) :
    gPerm pos1 pos2 bits (permApply pos1 pos2 bits i) = gPerm pos1 pos2 bits i := by
  apply Nat.eq_of_testBit_eq
  intro j
  rw [gPerm_testBit, gPerm_testBit]
  by_cases hj : j < bits
  · have hb1 := dPerm_testBit_left pos1 pos2 bits i j hj hd
    have hb2 := dPerm_testBit_right pos1 pos2 bits i j hj hd
    simp only [permApply_eq, Nat.testBit_xor, hb1, hb2]
    cases (gPerm pos1 pos2 bits i).testBit j <;>
      cases i.testBit (pos1 + j) <;> cases i.testBit (pos2 + j) <;> rfl
  · simp [hj]

theorem permApply_involution_of_le (pos1 pos2 bits i : Nat) (hd : pos1 + bits ≤ pos2) :
    permApply pos1 pos2 bits (permApply pos1 pos2 bits i) = i := by
  have houter := permApply_eq pos1 pos2 bits (permApply pos1 pos2 bits i)
  rw [houter, gPerm_permApply pos1 pos2 bits i hd, permApply_eq,
    Nat.xor_assoc, Nat.xor_self, Nat.xor_zero]

theorem permApply_comm (pos1 pos2 bits i : Nat) :
    permApply pos1 pos2 bits i = permApply pos2 pos1 bits i := by
  simp only [permApply]
  rw [Nat.xor_comm (i >>> pos2) (i >>> pos1), Nat.lor_comm]

theorem permApply_same (pos bits i : Nat) : permApply pos pos bits i = i := by
  simp [permApply, Nat.xor_self, Nat.zero_and, Nat.zero_shiftLeft, Nat.or_self,
    Nat.xor_zero]

/-- Claim C2 counterexample: `pos1 = 0, pos2 = 1, bits = 2, W = 4` satisfies
every condition of the claim — `pos1, pos2 ∈ [0, W)`, `bits ∈ [2, W)`,
`pos1 + bits < W`, `pos2 + bits < W` (the sampler predicate), the constructor
accepts it — and `x = 1 < 2^4`, yet applying `Permutation.transform` twice
yields 5, not 1: the two bit fields `[0, 2)` and `[1, 3)` overlap, and the
XOR-swap identity is not an involution on overlapping fields. -/
theorem perm_involution_counterexample :
    samplerPermAccepts 0 1 2 4 ∧ 2 ≤ (2 : Nat) ∧ (2 : Nat) < 4 ∧ (1 : Nat) < 1 <<< 4 ∧
    mkPermutation 0 1 2 4 = .ok (.permutation 0 1 2 4) ∧
    (Transform.transform (.permutation 0 1 2 4) 1) >>=
        Transform.transform (.permutation 0 1 2 4) = .ok 5 ∧
    ¬ ((Transform.transform (.permutation 0 1 2 4) 1) >>=
        Transform.transform (.permutation 0 1 2 4) = .ok 1) := by decide

/-- Claim C2 amended: for every admissible parameter set
(`pos1, pos2 ∈ [0, W)`, `bits ∈ [2, W)`, `pos1 + bits < W`,
`pos2 + bits < W`) whose two bit fields do not overlap
(`pos1 = pos2`, or `pos1 + bits ≤ pos2`, or `pos2 + bits ≤ pos1`) and every
`x ∈ [0, 2^W)`, applying `Permutation(pos1, pos2, bits, W).transform` twice
returns `x`. Overlapping admissible parameters (which the sampler can emit
and the engine only filters out dynamically through its round-trip check)
are excluded by the counterexample. -/
theorem perm_involution_amended (p1 p2 b W x : Nat)
    (hp1 : p1 < W) (hp2 : p2 < W) (hb2 : 2 ≤ b) (hbW : b < W)
    (h1 : p1 + b < W) (h2 : p2 + b < W) (hx : x < 1 <<< W)
    (hdisj : p1 = p2 ∨ p1 + b ≤ p2 ∨ p2 + b ≤ p1) :
    (Transform.transform (.permutation p1 p2 b W) x) >>=
      Transform.transform (.permutation p1 p2 b W) = .ok x := by
  show Except.ok (permApply p1 p2 b (permApply p1 p2 b x)) = .ok x
  rcases hdisj with heq | hle | hle
  · subst heq
    rw [permApply_same, permApply_same]
  · rw [permApply_involution_of_le p1 p2 b x hle]
  · rw [permApply_comm, permApply_comm p1 p2 b x,
      permApply_involution_of_le p2 p1 b x hle]

/-- Witness for `perm_involution_amended`: the spec's concrete scenario
`Perm(0, 3, 2, 16)` (disjoint fields) at `x = 30`. -/
theorem perm_involution_amended_witness :
    (Transform.transform (.permutation 0 3 2 16) 30) >>=
      Transform.transform (.permutation 0 3 2 16) = .ok 30 :=
  perm_involution_amended 0 3 2 16 30 (by decide) (by decide) (by decide) (by decide)
    (by decide) (by decide) (by decide) (Or.inr (Or.inl (by decide)))

end Strobf
